import Mathlib

/-
Shallow embedding of the IoTDataKit library (include/IoTData.h,
include/DataSet.h, include/IoTDataException.h).

Modelling conventions:
* Values (the template parameter T, instantiated at double in the tests) are
  modelled as exact rationals; the C++ code computes in double.  NaN/Inf do
  not exist in this exact model, so the source's NaN/Inf guards are noted in
  comments where they occur and are never triggered.
* Timestamp = std::chrono::time_point<system_clock> is modelled as an Int
  number of clock ticks; ticksPerSec ticks make one second (libstdc++ uses
  nanoseconds).  duration_cast<seconds> truncates toward zero, modelled by
  Int.tdiv.
* std::sort carries no stability guarantee: the C++ standard only promises a
  permutation of the input that is sorted w.r.t. the comparator.  The sort
  routine is therefore a parameter `si` of every definition that calls it,
  constrained by `SortImplOk` (exactly the std::sort postcondition for the
  comparator `a.first < b.first` used in IoTData::ensureSorted).
  `stableSortPairs` is one concrete conforming implementation used to
  instantiate witnesses.
* Exceptions are modelled by Except / an error component; each constructor of
  `Err` corresponds to one throw site's exception type and payload.
-/

namespace IoTDataKit

/-- Error taxonomy: one constructor per kind of throw site in the source
(IoTDataException.h hierarchy, std::out_of_range in trimData, and the
DataSet import error messages with their payloads). -/
inductive Err where
  | emptyData                 -- IoTDataEmptyException
  | insufficientData          -- IoTDataInsufficientException
  | invalidValue              -- IoTDataException on NaN/Inf values
  | internalMismatch          -- IoTDataException "Internal Error: ... counts differ"
  | sizeMismatch              -- IoTDataException in the (values, timestamps) constructor
  | outOfRange                -- std::out_of_range in trimData
  | fileEmpty                 -- IoTDataFileException "file is empty"
  | noValidData               -- IoTDataFileException "No valid data found"
  | formatInvalid (line : Nat)     -- IoTDataFileException "Invalid format" at a line
  | formatUnexpected (line : Nat)  -- IoTDataFileException "Unexpected characters after value"
  | notSorted                 -- IoTDataException "newTimestamps vector must be sorted"
  | rootNotObject             -- DataSet: root element is not an object
  | seriesNotObject (name : String)   -- DataSet: series element is not an object
  | missingKeys (name : String)       -- DataSet: missing timestamps_epoch_s or values
  | notArrays (name : String)         -- DataSet: fields are not arrays
  | lengthMismatch (name : String) (tsCount valCount : Nat)
      -- DataSet: "Mismatch between number of timestamps (tsCount) and values (valCount)"
  | badTimestamp (name : String)      -- DataSet: non-integer timestamp
  | badValue (name : String)          -- DataSet: value not convertible to T
deriving DecidableEq, Repr

/-- State of one IoTData<T> object: its two parallel vectors.  T is
instantiated at exact rationals (see the header comment). -/
structure SeriesState where
  data : List ℚ
  timestamps : List Int
deriving DecidableEq, Repr

/-- Comparator key order used by IoTData::ensureSorted: the std::sort
comparator is `a.first < b.first` on (timestamp, value) pairs, so the
sortedness it guarantees on the output is non-decreasing timestamps. -/
def keyLe (a b : Int × ℚ) : Prop := a.1 ≤ b.1

instance : DecidableRel keyLe := fun a b => inferInstanceAs (Decidable (a.1 ≤ b.1))

instance : IsTotal (Int × ℚ) keyLe := ⟨fun a b => Int.le_total a.1 b.1⟩

instance : IsTrans (Int × ℚ) keyLe := ⟨fun _ _ _ h1 h2 => le_trans h1 h2⟩

/-- Contract of std::sort with comparator `a.first < b.first`: the output is
a permutation of the input, sorted by non-decreasing timestamp.  The C++
standard guarantees nothing more (in particular, no stability). -/
def SortImplOk (si : List (Int × ℚ) → List (Int × ℚ)) : Prop :=
  ∀ l : List (Int × ℚ), (si l).Perm l ∧ (si l).Pairwise keyLe

/-- One concrete conforming sort implementation (a stable insertion sort),
used to instantiate witnesses. -/
def stableSortPairs (l : List (Int × ℚ)) : List (Int × ℚ) :=
  List.insertionSort keyLe l

theorem stableSortPairs_ok : SortImplOk stableSortPairs := by
  intro l
  exact ⟨List.perm_insertionSort keyLe l, List.sorted_insertionSort keyLe l⟩

/-- Model of IoTData::ensureSorted: pairs timestamps with values, sorts the
pairs with std::sort on the timestamp, and unpacks them back.  The source
first throws IoTDataException if the two vector sizes differ. -/
def ensureSorted (si : List (Int × ℚ) → List (Int × ℚ)) (s : SeriesState) :
    Except Err SeriesState :=
  if s.data.length ≠ s.timestamps.length then .error .internalMismatch
  else if s.data.isEmpty then .ok s
  else
    let paired := s.timestamps.zip s.data
    let sorted := si paired
    .ok ⟨sorted.map Prod.snd, sorted.map Prod.fst⟩

/-- Model of IoTData::appendData: push_back both values, then re-sort only
when the new timestamp is smaller than the previously last one
(`timestamps.size() > 1 && timestamp < timestamps[timestamps.size() - 2]`,
evaluated after the push_back). -/
def appendData (si : List (Int × ℚ) → List (Int × ℚ)) (s : SeriesState)
    (newData : ℚ) (timestamp : Int) : Except Err SeriesState :=
  let s' : SeriesState := ⟨s.data ++ [newData], s.timestamps ++ [timestamp]⟩
  if 1 < s'.timestamps.length ∧
      timestamp < s'.timestamps.getD (s'.timestamps.length - 2) 0 then
    ensureSorted si s'
  else
    .ok s'

/-- Model of the (values, timestamps) constructor of IoTData: throws on a
size mismatch, otherwise stores both vectors and runs ensureSorted. -/
def constructSeries (si : List (Int × ℚ) → List (Int × ℚ))
    (initialData : List ℚ) (initialTimestamps : List Int) :
    Except Err SeriesState :=
  if initialData.length ≠ initialTimestamps.length then .error .sizeMismatch
  else ensureSorted si ⟨initialData, initialTimestamps⟩

/-- Model of IoTData::calculateMean: throws IoTDataEmptyException on an empty
vector, otherwise accumulates the values into a running sum and divides by
the count.  The per-value and final NaN/Inf guards of the source cannot fire
in the exact-rational model. -/
def calculateMean (data : List ℚ) : Except Err ℚ :=
  if data.isEmpty then .error .emptyData
  else .ok ((data.foldl (fun sum v => sum + v) 0) / (data.length : ℚ))

/-- Radicand computed by IoTData::calculateStandardDeviation, i.e. the
population variance sumSquaredDiff / N.  The source returns std::sqrt of
this quantity (and returns 0.0 directly for a single sample, skipping the
sqrt); the radicand is kept unrooted here so the definition stays inside ℚ,
and the square root is applied at the statement level via Real.sqrt.
Control flow follows the source: IoTDataInsufficientException on empty
input, an early 0 for exactly one sample, then mean and the squared-diff
accumulation.  The NaN/Inf guard on the accumulated sum cannot fire in the
exact model. -/
def calculateStandardDeviationSq (data : List ℚ) : Except Err ℚ :=
  if data.isEmpty then .error .insufficientData
  else if data.length = 1 then .ok 0
  else
    match calculateMean data with
    | .error e => .error e
    | .ok mean =>
        let sumSquaredDiff :=
          data.foldl (fun acc v => acc + (v - mean) * (v - mean)) 0
        .ok (sumSquaredDiff / (data.length : ℚ))

/-- Contract of the std::sqrt stand-in used where the source takes a square
root whose result feeds back into control flow or data: it maps 0 to 0 and
positive rationals to positive rationals, exactly the property of
std::sqrt on non-negative doubles that the source's `stdev == 0.0` test
relies on. -/
def SqrtImplOk (sq : ℚ → ℚ) : Prop :=
  ∀ q : ℚ, 0 ≤ q → (sq q = 0 ↔ q = 0)

/-- Concrete std::sqrt stand-in (exact on perfect squares of rationals,
positive on positive inputs), used to instantiate witnesses. -/
def ratSqrt (q : ℚ) : ℚ :=
  (Nat.sqrt q.num.toNat : ℚ) / (Nat.sqrt q.den : ℚ)

/-- Full model of IoTData::calculateStandardDeviation: the square root of
the radicand, with std::sqrt abstracted as a conforming parameter. -/
def calculateStandardDeviation (sq : ℚ → ℚ) (data : List ℚ) : Except Err ℚ :=
  Except.map sq (calculateStandardDeviationSq data)

/-- Model of IoTData::normalizeData: IoTDataInsufficientException when fewer
than 2 samples; compute mean and standard deviation; when the standard
deviation is exactly 0 throw IoTDataInsufficientException (constant data);
the NaN/Inf guard on stdev cannot fire in the exact model; otherwise map
every value to (value - mean) / stdev.  The result pairs an optional error
with the state after the call: the source mutates in place and every throw
happens before the transform, so on error the state is returned unchanged. -/
def normalizeData (sq : ℚ → ℚ) (s : SeriesState) : Option Err × SeriesState :=
  if s.data.length < 2 then (some .insufficientData, s)
  else
    match calculateMean s.data, calculateStandardDeviation sq s.data with
    | .ok mean, .ok stdev =>
        if stdev = 0 then (some .insufficientData, s)
        else (none, ⟨s.data.map (fun v => (v - mean) / stdev), s.timestamps⟩)
    | .error e, _ => (some e, s)
    | _, .error e => (some e, s)

/-- Sliding phase of IoTData::calculateMovingAverage: `leaving` walks the
values that fall out of the window (starting at data[0]) and `entering`
walks the values that enter it (starting at data[windowSize]); each step
updates the running sum and appends sum / windowSize.  NaN/Inf guards of
the source cannot fire in the exact model. -/
def movingAverageLoop (windowSize : Nat) :
    List ℚ → List ℚ → ℚ → List ℚ
  | _, [], _ => []
  | [], _ :: _, _ => []
  | leave :: leaving, enter :: entering, currentSum =>
      let nextSum := currentSum - leave + enter
      nextSum / (windowSize : ℚ) ::
        movingAverageLoop windowSize leaving entering nextSum

/-- Model of IoTData::calculateMovingAverage: IoTDataEmptyException on an
empty vector, IoTDataInsufficientException when windowSize is 0 or larger
than the data size; otherwise the first window's sum is accumulated
directly and the window is slid across the rest. -/
def calculateMovingAverage (data : List ℚ) (windowSize : Nat) :
    Except Err (List ℚ) :=
  if data.isEmpty then .error .emptyData
  else if windowSize = 0 then .error .insufficientData
  else if data.length < windowSize then .error .insufficientData
  else
    let firstSum := (data.take windowSize).foldl (fun sum v => sum + v) 0
    .ok (firstSum / (windowSize : ℚ) ::
      movingAverageLoop windowSize data (data.drop windowSize) firstSum)

/-- Model of IoTData::trimData: std::out_of_range unless the percentage is
in [0, 100); silent no-op on an empty series; otherwise remove
trimCount = floor(size * percentage / 200) samples from each end, clearing
everything when 2 * trimCount would reach the whole size.  The source
computes the product in double and truncates via static_cast<size_t>;
the arithmetic is modelled exactly in ℚ with Int.floor. -/
def trimData (trimPercentage : ℚ) (s : SeriesState) :
    Except Err SeriesState :=
  if trimPercentage < 0 ∨ 100 ≤ trimPercentage then .error .outOfRange
  else if s.data.isEmpty then .ok s
  else
    let totalSize := s.data.length
    let trimCount : Nat :=
      (⌊(totalSize : ℚ) * trimPercentage / 200⌋).toNat
    if totalSize ≤ 2 * trimCount then .ok ⟨[], []⟩
    else if 0 < trimCount then
      .ok ⟨(s.data.drop trimCount).take (totalSize - 2 * trimCount),
           (s.timestamps.drop trimCount).take (totalSize - 2 * trimCount)⟩
    else .ok s

/-- Interpolation methods offered by the source (cubic spline is commented
out there). -/
inductive InterpolationMethod where
  | LINEAR
  | NEAREST_NEIGHBOR
deriving DecidableEq, Repr

/-- Model of std::lower_bound on the timestamps vector: index of the first
element not less than t, or the length when every element is less. -/
def lowerBoundIdx (ts : List Int) (t : Int) : Nat :=
  ts.findIdx (fun x => t ≤ x)

/-- Body of the per-query loop of IoTData::interpolateData for one query
time t: boundary clamps via the lower_bound position, exact-match shortcuts
(upper neighbour first), then the method switch.  The NaN/Inf guard on the
linear result cannot fire in the exact model. -/
def interpolateOne (data : List ℚ) (ts : List Int)
    (method : InterpolationMethod) (t : Int) : ℚ :=
  let i := lowerBoundIdx ts t
  if i = 0 then data.getD 0 0
  else if i = ts.length then data.getD (data.length - 1) 0
  else
    let t0 := ts.getD (i - 1) 0
    let t1 := ts.getD i 0
    let y0 := data.getD (i - 1) 0
    let y1 := data.getD i 0
    if t = t1 then y1
    else if t = t0 then y0
    else
      match method with
      | .LINEAR =>
          if t1 = t0 then y0
          else
            let factor : ℚ := ((t - t0 : Int) : ℚ) / ((t1 - t0 : Int) : ℚ)
            y0 + factor * (y1 - y0)
      | .NEAREST_NEIGHBOR =>
          if t - t0 ≤ t1 - t then y0 else y1

/-- Adjacent-pair sortedness check run by IoTData::interpolateData on the
query times (`newTimestamps[i] < newTimestamps[i-1]` throws). -/
def adjacentSorted : List Int → Bool
  | [] => true
  | [_] => true
  | a :: b :: rest => a ≤ b && adjacentSorted (b :: rest)

/-- Model of IoTData::interpolateData: IoTDataEmptyException on an empty
series, IoTDataException when the query times are not sorted, otherwise one
interpolated value per query time. -/
def interpolateData (s : SeriesState) (newTimestamps : List Int)
    (method : InterpolationMethod) : Except Err (List ℚ) :=
  if s.data.isEmpty then .error .emptyData
  else if ¬ adjacentSorted newTimestamps then .error .notSorted
  else .ok (newTimestamps.map (interpolateOne s.data s.timestamps method))

/-- Clock resolution of the modelled std::chrono::system_clock (libstdc++
uses nanosecond ticks); any positive resolution gives the same results
below. -/
def ticksPerSec : Int := 1000000000

/-- Truncation performed by duration_cast<seconds> on a tick count:
integer division rounding toward zero. -/
def truncSec (t : Int) : Int := t.tdiv ticksPerSec

/-- Whitespace set of the classic locale, used both by istream extraction
skipping and by the source's blank-line test
`find_first_not_of(" \t\n\v\f\r")`. -/
def isStreamSpace (c : Char) : Bool :=
  c = ' ' || c = '\t' || c = '\n' || c = Char.ofNat 11 || c = Char.ofNat 12 ||
    c = '\r'

/-- Numeric value of a digit string. -/
def digitsVal (l : List Char) : Nat :=
  l.foldl (fun acc c => 10 * acc + (c.toNat - 48)) 0

/-- Model of istream extraction of a long long: skip whitespace, optional
sign, then at least one digit; fails (sets failbit) when no digit follows. -/
def parseLongLong (cs : List Char) : Option (Int × List Char) :=
  let cs1 := cs.dropWhile isStreamSpace
  let signed : Bool × List Char :=
    match cs1 with
    | '-' :: rest => (true, rest)
    | '+' :: rest => (false, rest)
    | _ => (false, cs1)
  let digits := signed.2.takeWhile Char.isDigit
  let rest := signed.2.dropWhile Char.isDigit
  if digits.isEmpty then none
  else some (if signed.1 then -(digitsVal digits : Int) else (digitsVal digits : Int), rest)

/-- Model of istream extraction of a char: skip whitespace, take one
character; fails at end of input. -/
def parseCharTok (cs : List Char) : Option (Char × List Char) :=
  match cs.dropWhile isStreamSpace with
  | [] => none
  | c :: rest => some (c, rest)

/-- Model of istream extraction of a double (the value field, T = double in
the modelled instantiation): skip whitespace, optional sign, digits with an
optional fractional part (at least one digit overall), optional exponent.
The parsed number is represented exactly as a rational. -/
def parseDouble (cs : List Char) : Option (ℚ × List Char) :=
  let cs1 := cs.dropWhile isStreamSpace
  let signed : Bool × List Char :=
    match cs1 with
    | '-' :: rest => (true, rest)
    | '+' :: rest => (false, rest)
    | _ => (false, cs1)
  let intDigits := signed.2.takeWhile Char.isDigit
  let cs3 := signed.2.dropWhile Char.isDigit
  let fracPart : List Char × List Char :=
    match cs3 with
    | '.' :: r => (r.takeWhile Char.isDigit, r.dropWhile Char.isDigit)
    | _ => ([], cs3)
  if intDigits.isEmpty && fracPart.1.isEmpty then none
  else
    let mantissa : ℚ :=
      (digitsVal intDigits : ℚ) +
        (digitsVal fracPart.1 : ℚ) / ((10 : ℚ) ^ fracPart.1.length)
    let m : ℚ := if signed.1 then -mantissa else mantissa
    match fracPart.2 with
    | 'e' :: r | 'E' :: r =>
        let esigned : Bool × List Char :=
          match r with
          | '-' :: r2 => (true, r2)
          | '+' :: r2 => (false, r2)
          | _ => (false, r)
        let eDigits := esigned.2.takeWhile Char.isDigit
        let rest := esigned.2.dropWhile Char.isDigit
        if eDigits.isEmpty then none
        else if esigned.1 then
          some (m / (10 : ℚ) ^ digitsVal eDigits, rest)
        else some (m * (10 : ℚ) ^ digitsVal eDigits, rest)
    | rest => some (m, rest)

/-- Loop of IoTData::importDataFromFile over the lines of the file: count
the line, skip blank lines, otherwise require
`epochSeconds >> comma >> value` with comma ',' and nothing but whitespace
after the value; accumulate the value and the timestamp rebuilt from whole
epoch seconds.  After the loop, an empty accumulation is an error that
distinguishes a file with no lines from one with no valid data.  The
source's header probe reads the first line and then rewinds the stream to
the beginning in both branches of its check (resetting its line counter),
so the loop processes every line of the file, the first included. -/
def importLineLoop : List (List Char) → Nat → List ℚ → List Int →
    Except Err (List ℚ × List Int)
  | [], lineNumber, vals, tss =>
      if vals.isEmpty then
        if lineNumber = 0 then .error .fileEmpty else .error .noValidData
      else .ok (vals, tss)
  | line :: rest, lineNumber, vals, tss =>
      let n := lineNumber + 1
      if line.all isStreamSpace then importLineLoop rest n vals tss
      else
        match parseLongLong line with
        | none => .error (.formatInvalid n)
        | some (epochSeconds, r1) =>
          match parseCharTok r1 with
          | none => .error (.formatInvalid n)
          | some (comma, r2) =>
            if comma = ',' then
              match parseDouble r2 with
              | none => .error (.formatInvalid n)
              | some (value, r3) =>
                match parseCharTok r3 with
                | some _ => .error (.formatUnexpected n)
                | none =>
                    importLineLoop rest n (vals ++ [value])
                      (tss ++ [epochSeconds * ticksPerSec])
            else .error (.formatInvalid n)

/-- Model of IoTData::importDataFromFile on the lines of an already-opened
file: clear the series, run the line loop, then ensureSorted. -/
def importDataFromLines (si : List (Int × ℚ) → List (Int × ℚ))
    (lines : List (List Char)) : Except Err SeriesState :=
  match importLineLoop lines 0 [] [] with
  | .error e => .error e
  | .ok (vals, tss) => ensureSorted si ⟨vals, tss⟩

/-- Header line always written first by IoTData::exportDataToFile. -/
def headerLine : List Char := "TimestampEpochSeconds,Value".toList

/-- Text written for one value by `outputFile << data[i]`.  The source uses
the ostream default formatting of T; the exact text is irrelevant to the
theorems below (the import fails before reading any data row), so the
rational's own rendering is used. -/
def valueChars (v : ℚ) : List Char := (toString v).toList

/-- Model of IoTData::exportDataToFile on an open file: a header line, then
one `epochSeconds,value` row per sample with the timestamp truncated to
whole seconds. -/
def exportLines (s : SeriesState) : List (List Char) :=
  headerLine ::
    (s.timestamps.zip s.data).map
      (fun p => (toString (truncSec p.1)).toList ++ ',' :: valueChars p.2)

/-- Shallow model of the nlohmann JSON document shapes the DataSet code
inspects: objects (iterated in std::map order, i.e. the listed order of the
already-parsed document), arrays, integer numbers, non-integer numbers, and
a catch-all for the remaining kinds (string, boolean, null). -/
inductive Json where
  | obj (fields : List (String × Json))
  | arr (elems : List Json)
  | int (n : Int)
  | num (q : ℚ)
  | other

/-- Field lookup `seriesJson[key]` / `seriesJson.contains(key)` on a JSON
object's field list (first match). -/
def jsonLookup (fields : List (String × Json)) (key : String) : Option Json :=
  fields.lookup key

/-- Decoding of one timestamps array by the DataSet import loop: every
element must satisfy is_number_integer, and each integer is turned into a
time_point via from_time_t (whole seconds). -/
def decodeTimestamps (name : String) : List Json → Except Err (List Int)
  | [] => .ok []
  | .int n :: rest =>
      match decodeTimestamps name rest with
      | .error e => .error e
      | .ok tss => .ok (n * ticksPerSec :: tss)
  | _ :: _ => .error (.badTimestamp name)

/-- Decoding of one values array by the DataSet import loop: `get<T>()`
with T = double accepts any JSON number (integer or not) and nothing else. -/
def decodeValues (name : String) : List Json → Except Err (List ℚ)
  | [] => .ok []
  | .int n :: rest =>
      match decodeValues name rest with
      | .error e => .error e
      | .ok vs => .ok ((n : ℚ) :: vs)
  | .num q :: rest =>
      match decodeValues name rest with
      | .error e => .error e
      | .ok vs => .ok (q :: vs)
  | _ :: _ => .error (.badValue name)

/-- Per-series validation and decoding steps of DataSet::importFromJson, in
source order: the series element must be an object, must contain both
required keys, both fields must be arrays, the two arrays must have equal
lengths (the error records the series name and both counts), and only then
are the elements decoded (timestamps first, then values). -/
def decodeSeriesJson (name : String) (j : Json) :
    Except Err (List ℚ × List Int) :=
  match j with
  | .obj fields =>
      match jsonLookup fields "timestamps_epoch_s", jsonLookup fields "values" with
      | none, _ => .error (.missingKeys name)
      | _, none => .error (.missingKeys name)
      | some tsJson, some valsJson =>
          match tsJson, valsJson with
          | .arr tsArr, .arr valArr =>
              if tsArr.length ≠ valArr.length then
                .error (.lengthMismatch name tsArr.length valArr.length)
              else
                match decodeTimestamps name tsArr with
                | .error e => .error e
                | .ok tss =>
                    match decodeValues name valArr with
                    | .error e => .error e
                    | .ok vals => .ok (vals, tss)
          | _, _ => .error (.notArrays name)
  | _ => .error (.seriesNotObject name)

/-- Model of `seriesMap.emplace(name, series)` on the name-keyed state kept
as an association list in map iteration order: no effect when the key is
already present. -/
def emplaceSeries (m : List (String × SeriesState)) (name : String)
    (s : SeriesState) : List (String × SeriesState) :=
  if (m.map Prod.fst).contains name then m else m ++ [(name, s)]

/-- Iteration of DataSet::importFromJson over the root object's entries:
each series is decoded, constructed through the sort-restoring
IoTData(values, timestamps) constructor and emplaced; a failure stops the
loop at once, and the state keeps exactly the series emplaced before the
failure (the source lets the exception propagate out of the loop). -/
def importSeriesLoop (si : List (Int × ℚ) → List (Int × ℚ)) :
    List (String × Json) → List (String × SeriesState) →
    Option Err × List (String × SeriesState)
  | [], acc => (none, acc)
  | (name, j) :: rest, acc =>
      match decodeSeriesJson name j with
      | .error e => (some e, acc)
      | .ok (vals, tss) =>
          match constructSeries si vals tss with
          | .error e => (some e, acc)
          | .ok s => importSeriesLoop si rest (emplaceSeries acc name s)

/-- Model of DataSet::importFromJson after the file has been read and
parsed (file open and JSON parse failures are upstream of this model): the
DataSet is cleared first, whatever it held; then the root must be an
object; then the entries are imported in order.  The pair returned is the
optional error and the state of the DataSet when the call ends. -/
def importFromJson (si : List (Int × ℚ) → List (Int × ℚ))
    (initial : List (String × SeriesState)) (root : Json) :
    Option Err × List (String × SeriesState) :=
  match root, initial with
  | .obj entries, _ => importSeriesLoop si entries []
  | _, _ => (some .rootNotObject, [])

/-- Population variance written from the spec's words: the radicand of
`sqrt(sum((x - mean)^2) / N)` with divisor N, mean = sum / N. -/
def specPopulationVariance (l : List ℚ) : ℚ :=
  ((l.map (fun x => (x - l.sum / (l.length : ℚ)) ^ 2)).sum) / (l.length : ℚ)

/-- Moving average written from the spec's words: count − windowSize + 1
outputs, the i-th being the mean of the windowSize consecutive values
starting at index i. -/
def specMovingAvg (l : List ℚ) (w : Nat) : List ℚ :=
  (List.range (l.length - w + 1)).map
    (fun i => ((l.drop i).take w).sum / (w : ℚ))

/-- Stability property written from the spec's words: pairs with equal
timestamps keep their relative original order in the output (stated via
positions of the pairs themselves, which is exact whenever the pairs are
pairwise distinct). -/
def KeepsTieOrder (inp out : List (Int × ℚ)) : Prop :=
  ∀ p ∈ inp, ∀ q ∈ inp, p.1 = q.1 →
    inp.indexOf p < inp.indexOf q → out.indexOf p < out.indexOf q

/-- A sort routine meeting the std::sort contract (sorted permutation for
the timestamp comparator) that reorders the equal-timestamp pairs of one
specific input — permitted behaviour for std::sort, which guarantees no
stability. -/
def evilSort (l : List (Int × ℚ)) : List (Int × ℚ) :=
  if l = [(0, 1), (0, 2)] then [(0, 2), (0, 1)] else stableSortPairs l

theorem foldl_plain_sum (l : List ℚ) :
    ∀ a : ℚ, l.foldl (fun sum v => sum + v) a = a + l.sum := by
  induction l with
  | nil => simp
  | cons x xs ih => intro a; simp [List.foldl_cons, ih, add_assoc]

theorem foldl_add_map (f : ℚ → ℚ) (l : List ℚ) :
    ∀ a : ℚ, l.foldl (fun acc v => acc + f v) a = a + (l.map f).sum := by
  induction l with
  | nil => simp
  | cons x xs ih => intro a; simp [List.foldl_cons, ih, add_assoc]

theorem calculateMean_eq (data : List ℚ) (h : data ≠ []) :
    calculateMean data = .ok (data.sum / (data.length : ℚ)) := by
  simp [calculateMean, h, foldl_plain_sum]

theorem calculateStandardDeviationSq_eq (data : List ℚ)
    (h : 2 ≤ data.length) :
    calculateStandardDeviationSq data = .ok (specPopulationVariance data) := by
  have hne : data ≠ [] := by
    intro he; rw [he] at h; simp at h
  have hlen : data.length ≠ 1 := by omega
  have hmap : (fun v : ℚ => (v - data.sum / (data.length : ℚ)) *
      (v - data.sum / (data.length : ℚ))) =
      (fun v : ℚ => (v - data.sum / (data.length : ℚ)) ^ 2) := by
    funext v; ring
  simp only [calculateStandardDeviationSq, List.isEmpty_eq_true, hne,
    if_false, hlen, calculateMean_eq data hne]
  rw [foldl_add_map (fun v => (v - data.sum / (data.length : ℚ)) *
      (v - data.sum / (data.length : ℚ))) data 0]
  simp [specPopulationVariance, hmap]

/-- C4: calculateStandardDeviation fails with InsufficientData on an empty
series, returns exactly 0 for a series with exactly one sample, and for
every series of two or more samples returns the population standard
deviation sqrt(sum((x - mean)^2) / N) with divisor N; in particular on
[1,2,3,4,5] it returns sqrt 2.  The source returns std::sqrt of the
radicand modelled by calculateStandardDeviationSq; the square root is
taken here at the statement level over ℝ. -/
theorem claim_C4_standardDeviation :
    (calculateStandardDeviationSq ([] : List ℚ) = .error .insufficientData) ∧
    (∀ x : ℚ, calculateStandardDeviationSq [x] = .ok 0) ∧
    (∀ data : List ℚ, 2 ≤ data.length →
      Except.map (fun q : ℚ => Real.sqrt (q : ℝ))
          (calculateStandardDeviationSq data) =
        .ok (Real.sqrt ((specPopulationVariance data : ℚ) : ℝ))) ∧
    (Except.map (fun q : ℚ => Real.sqrt (q : ℝ))
        (calculateStandardDeviationSq [1, 2, 3, 4, 5]) =
      .ok (Real.sqrt 2)) := by
  refine ⟨rfl, ?_, ?_, ?_⟩
  · intro x
    simp [calculateStandardDeviationSq]
  · intro data h
    rw [calculateStandardDeviationSq_eq data h]
    rfl
  · have h2 : calculateStandardDeviationSq [1, 2, 3, 4, 5] = .ok 2 := by
      norm_num [calculateStandardDeviationSq, calculateMean, List.foldl]
    rw [h2]
    show Except.ok (Real.sqrt ((2 : ℚ) : ℝ)) = Except.ok (Real.sqrt 2)
    norm_num

/-- Closed witness for claim C4, instantiating the quantified conjuncts at
[1,2,3,4,5] and at a single sample. -/
theorem claim_C4_standardDeviation_witness :
    (2 ≤ ([1, 2, 3, 4, 5] : List ℚ).length ∧
      Except.map (fun q : ℚ => Real.sqrt (q : ℝ))
          (calculateStandardDeviationSq [1, 2, 3, 4, 5]) =
        .ok (Real.sqrt ((specPopulationVariance [1, 2, 3, 4, 5] : ℚ) : ℝ))) ∧
    calculateStandardDeviationSq [(7 : ℚ)] = .ok 0 :=
  ⟨⟨by norm_num,
    claim_C4_standardDeviation.2.2.1 [1, 2, 3, 4, 5] (by norm_num)⟩,
   claim_C4_standardDeviation.2.1 7⟩

theorem movingAverageLoop_spec (v : Nat) :
    ∀ leaving : List ℚ,
      movingAverageLoop (v + 1) leaving (leaving.drop (v + 1))
          ((leaving.take (v + 1)).sum) =
        (List.range (leaving.length - (v + 1))).map
          (fun k => ((leaving.drop (k + 1)).take (v + 1)).sum / ((v + 1 : Nat) : ℚ)) := by
  intro leaving
  induction leaving with
  | nil => simp [movingAverageLoop]
  | cons x rest ih =>
      have hdrop : (x :: rest).drop (v + 1) = rest.drop v := by
        simp [List.drop_succ_cons]
      rcases he : rest.drop v with _ | ⟨e, tail⟩
      · have hlen : rest.length ≤ v := by
          have := List.drop_eq_nil_iff.mp he
          omega
        have hz : (x :: rest).length - (v + 1) = 0 := by
          simp [List.length_cons]; omega
        rw [hdrop, he, hz]
        simp [movingAverageLoop]
      · have hvlt : v < rest.length := by
          by_contra hle
          have : rest.drop v = [] := List.drop_eq_nil_iff.mpr (by omega)
          rw [this] at he; exact absurd he (by simp)
        have htail : tail = rest.drop (v + 1) := by
          have h1 : (rest.drop v).tail = rest.drop (v + 1) := List.tail_drop rest v
          rw [he] at h1
          exact h1
        have hsum : ((x :: rest).take (v + 1)).sum - x + e =
            ((rest.take (v + 1)).sum) := by
          have h1 : (x :: rest).take (v + 1) = x :: rest.take v := by
            simp [List.take_succ_cons]
          have h2 : rest.take (v + 1) = rest.take v ++ (rest.drop v).take 1 := by
            rw [← List.take_add]
          have h3 : (rest.drop v).take 1 = [e] := by rw [he]; rfl
          rw [h1, h2, h3]
          simp [List.sum_append]
        have hvsum : ((x :: rest).drop 1).take (v + 1) = rest.take (v + 1) := by
          simp
        rw [hdrop, he]
        show (((x :: rest).take (v + 1)).sum - x + e) / ((v + 1 : Nat) : ℚ) ::
            movingAverageLoop (v + 1) rest tail
              (((x :: rest).take (v + 1)).sum - x + e) = _
        rw [hsum, htail, ih]
        have hlen2 : (x :: rest).length - (v + 1) = (rest.length - (v + 1)) + 1 := by
          simp [List.length_cons]; omega
        rw [hlen2, List.range_succ_eq_map, List.map_cons, List.map_map]
        simp [Function.comp, List.drop_succ_cons]

/-- C7: movingAverage over a fixed window fails with EmptyData on an empty
series and with InsufficientData when windowSize is 0 or larger than the
count; otherwise it returns exactly count − windowSize + 1 averages, the
i-th being the mean of the windowSize consecutive values starting at index
i (specMovingAvg); in particular windowSize 3 on [10,12,9,11,13,5] yields
[(10+12+9)/3, (12+9+11)/3, (9+11+13)/3, (11+13+5)/3]. -/
theorem claim_C7_movingAverage :
    (∀ w : Nat, calculateMovingAverage [] w = .error .emptyData) ∧
    (∀ data : List ℚ, data ≠ [] →
      calculateMovingAverage data 0 = .error .insufficientData) ∧
    (∀ (data : List ℚ) (w : Nat), data ≠ [] → data.length < w →
      calculateMovingAverage data w = .error .insufficientData) ∧
    (∀ (data : List ℚ) (w : Nat), 0 < w → w ≤ data.length →
      calculateMovingAverage data w = .ok (specMovingAvg data w) ∧
      (specMovingAvg data w).length = data.length - w + 1 ∧
      (∀ i : Nat, i < (specMovingAvg data w).length →
        (specMovingAvg data w).getD i 0 = ((data.drop i).take w).sum / (w : ℚ))) ∧
    (calculateMovingAverage [10, 12, 9, 11, 13, 5] 3 =
      .ok [(10 + 12 + 9) / 3, (12 + 9 + 11) / 3, (9 + 11 + 13) / 3,
           (11 + 13 + 5) / 3]) := by
  refine ⟨?_, ?_, ?_, ?_, ?_⟩
  · intro w; rfl
  · intro data h; simp [calculateMovingAverage, h]
  · intro data w h hlt
    have hw : w ≠ 0 := by omega
    simp [calculateMovingAverage, h, hw, hlt]
  · intro data w hw hle
    obtain ⟨v, rfl⟩ : ∃ v, w = v + 1 := ⟨w - 1, by omega⟩
    have hne : data ≠ [] := by
      intro he; rw [he] at hle; simp at hle
    have hmain : calculateMovingAverage data (v + 1) =
        .ok (specMovingAvg data (v + 1)) := by
      have hnlt : ¬ data.length < v + 1 := by omega
      simp only [calculateMovingAverage, List.isEmpty_eq_true, hne,
        if_false, Nat.succ_ne_zero, hnlt]
      rw [foldl_plain_sum, zero_add, movingAverageLoop_spec v data]
      simp only [specMovingAvg]
      rw [List.range_succ_eq_map, List.map_cons, List.map_map]
      simp [Function.comp]
    refine ⟨hmain, ?_, ?_⟩
    · simp [specMovingAvg]
    · intro i hi
      simp only [specMovingAvg, List.length_map, List.length_range] at hi
      simp [specMovingAvg, List.getD_eq_getElem?_getD, hi]
  · norm_num [calculateMovingAverage, movingAverageLoop, List.foldl]

/-- Closed witness for claim C7, instantiating the quantified conjuncts at
the spec's example input. -/
theorem claim_C7_movingAverage_witness :
    (0 < 3 ∧ 3 ≤ ([10, 12, 9, 11, 13, 5] : List ℚ).length ∧
      calculateMovingAverage [10, 12, 9, 11, 13, 5] 3 =
        .ok (specMovingAvg [10, 12, 9, 11, 13, 5] 3)) ∧
    calculateMovingAverage [(1 : ℚ)] 0 = .error .insufficientData ∧
    calculateMovingAverage [(1 : ℚ)] 2 = .error .insufficientData :=
  ⟨⟨by norm_num, by norm_num,
    (claim_C7_movingAverage.2.2.2.1 [10, 12, 9, 11, 13, 5] 3 (by norm_num)
      (by norm_num)).1⟩,
   claim_C7_movingAverage.2.1 [(1 : ℚ)] (by simp),
   claim_C7_movingAverage.2.2.1 [(1 : ℚ)] 2 (by simp) (by norm_num)⟩

theorem ratSqrt_ok : SqrtImplOk ratSqrt := by
  intro q hq
  have hden : (0 : ℚ) < (Nat.sqrt q.den : ℚ) := by
    have h1 : 0 < q.den := q.pos
    have h2 : 0 < Nat.sqrt q.den := Nat.sqrt_pos.mpr h1
    exact_mod_cast h2
  constructor
  · intro h
    rw [ratSqrt, div_eq_zero_iff] at h
    rcases h with h | h
    · have h1 : Nat.sqrt q.num.toNat = 0 := by exact_mod_cast h
      have h2 : q.num.toNat = 0 := Nat.sqrt_eq_zero.mp h1
      have h4 : 0 ≤ q.num := Rat.num_nonneg.mpr hq
      exact Rat.zero_iff_num_zero.mpr (by omega)
    · exact absurd h (ne_of_gt hden)
  · intro h
    rw [h]
    simp [ratSqrt]

/-- C5: normalize fails with InsufficientData whenever the series has fewer
than 2 samples or the computed standard deviation is exactly 0 (constant
series, e.g. [5,5,5]); on such inputs it never returns a result and the
series data is left unchanged (the returned state equals the input state).
Quantified over every conforming std::sqrt stand-in. -/
theorem claim_C5_normalize :
    ∀ sqr : ℚ → ℚ, SqrtImplOk sqr →
      (∀ s : SeriesState,
        (s.data.length < 2 ∨ calculateStandardDeviation sqr s.data = .ok 0) →
        normalizeData sqr s = (some .insufficientData, s)) ∧
      (∀ ts : List Int,
        normalizeData sqr ⟨[5, 5, 5], ts⟩ =
          (some .insufficientData, ⟨[5, 5, 5], ts⟩)) := by
  intro sqr hsq
  have main : ∀ s : SeriesState,
      (s.data.length < 2 ∨ calculateStandardDeviation sqr s.data = .ok 0) →
      normalizeData sqr s = (some .insufficientData, s) := by
    intro s h
    by_cases hlen : s.data.length < 2
    · simp [normalizeData, hlen]
    · have h0 : calculateStandardDeviation sqr s.data = .ok 0 :=
        h.resolve_left hlen
      have hne : s.data ≠ [] := by
        intro he
        rw [he] at hlen
        simp at hlen
      simp [normalizeData, hlen, calculateMean_eq s.data hne, h0]
  refine ⟨main, fun ts => main ⟨[5, 5, 5], ts⟩ (Or.inr ?_)⟩
  have hvar : calculateStandardDeviationSq [5, 5, 5] = .ok 0 := by
    norm_num [calculateStandardDeviationSq, calculateMean, List.foldl]
  have hsq0 : sqr 0 = 0 := (hsq 0 le_rfl).mpr rfl
  show Except.map sqr (calculateStandardDeviationSq [5, 5, 5]) = .ok 0
  rw [hvar]
  simp [Except.map, hsq0]

/-- Closed witness for claim C5, instantiating the conforming sqrt stand-in
at ratSqrt, the constant series at [5,5,5] and the short series at one
sample. -/
theorem claim_C5_normalize_witness :
    SqrtImplOk ratSqrt ∧
    normalizeData ratSqrt ⟨[5, 5, 5], [0, 1, 2]⟩ =
      (some .insufficientData, ⟨[5, 5, 5], [0, 1, 2]⟩) ∧
    normalizeData ratSqrt ⟨[7], [0]⟩ = (some .insufficientData, ⟨[7], [0]⟩) :=
  ⟨ratSqrt_ok, (claim_C5_normalize ratSqrt ratSqrt_ok).2 [0, 1, 2],
   (claim_C5_normalize ratSqrt ratSqrt_ok).1 ⟨[7], [0]⟩ (Or.inl (by norm_num))⟩

/-- C9: for every non-empty series of n samples with matching vector
lengths and every trimPercentage in [0, 100), trimData removes
trimCount = floor(n * trimPercentage / 200) samples from each end, with
2 * trimCount < n always holding, so the clear-everything branch is
unreachable and trimData never empties a non-empty series under a valid
percentage.  The double product of the source is modelled exactly in ℚ. -/
theorem claim_C9_trimData :
    ∀ (p : ℚ) (s : SeriesState), 0 ≤ p → p < 100 → s.data ≠ [] →
      s.data.length = s.timestamps.length →
      ∀ tc : Nat, tc = (⌊(s.data.length : ℚ) * p / 200⌋).toNat →
        2 * tc < s.data.length ∧
        trimData p s = .ok ⟨(s.data.drop tc).take (s.data.length - 2 * tc),
          (s.timestamps.drop tc).take (s.data.length - 2 * tc)⟩ ∧
        (s.data.drop tc).take (s.data.length - 2 * tc) ≠ [] := by
  intro p s hp0 hp100 hne hlen tc htc
  have hn : 0 < s.data.length := List.length_pos.mpr hne
  have hnq : (0 : ℚ) < (s.data.length : ℚ) := by exact_mod_cast hn
  have hq : (s.data.length : ℚ) * p / 200 < (s.data.length : ℚ) / 2 := by
    rw [div_lt_div_iff₀ (by norm_num) (by norm_num)]
    nlinarith
  have hfl : ((⌊(s.data.length : ℚ) * p / 200⌋ : ℤ) : ℚ) ≤
      (s.data.length : ℚ) * p / 200 := Int.floor_le _
  have hfnn : 0 ≤ ⌊(s.data.length : ℚ) * p / 200⌋ :=
    Int.floor_nonneg.mpr (by positivity)
  have h3 : 2 * ⌊(s.data.length : ℚ) * p / 200⌋ < (s.data.length : ℤ) := by
    have h2 : ((2 * ⌊(s.data.length : ℚ) * p / 200⌋ : ℤ) : ℚ) <
        (s.data.length : ℚ) := by push_cast; linarith
    exact_mod_cast h2
  have h2tc : 2 * tc < s.data.length := by omega
  have hcond : ¬(p < 0 ∨ 100 ≤ p) :=
    not_or.mpr ⟨not_lt.mpr hp0, not_le.mpr hp100⟩
  have hempty : s.data.isEmpty = false := by
    simp [List.isEmpty_iff, hne]
  refine ⟨h2tc, ?_, ?_⟩
  · simp only [trimData, if_neg hcond, hempty, Bool.false_eq_true, if_false]
    rw [← htc, if_neg (not_le.mpr h2tc)]
    by_cases h0 : 0 < tc
    · rw [if_pos h0]
    · rw [if_neg h0]
      have htc0 : tc = 0 := by omega
      subst htc0
      simp only [Nat.mul_zero, Nat.sub_zero, List.drop_zero]
      rw [List.take_length, hlen, List.take_length]
  · have hlen2 : ((s.data.drop tc).take (s.data.length - 2 * tc)).length =
        s.data.length - 2 * tc := by
      simp only [List.length_take, List.length_drop]
      omega
    intro hnil
    rw [hnil] at hlen2
    simp at hlen2
    omega

/-- Closed witness for claim C9 at percentage 50 on a four-sample series,
where trimCount is 1. -/
theorem claim_C9_trimData_witness :
    (0 : ℚ) ≤ 50 ∧ (50 : ℚ) < 100 ∧
    (1 : Nat) = (⌊((4 : Nat) : ℚ) * 50 / 200⌋).toNat ∧
    2 * 1 < 4 ∧
    trimData 50 ⟨[1, 2, 3, 4], [0, 1, 2, 3]⟩ = .ok ⟨[2, 3], [1, 2]⟩ := by
  have h := claim_C9_trimData 50 ⟨[1, 2, 3, 4], [0, 1, 2, 3]⟩ (by norm_num)
    (by norm_num) (by simp) (by simp) 1 (by norm_num)
  refine ⟨by norm_num, by norm_num, by norm_num, h.1, ?_⟩
  rw [h.2.1]
  rfl

theorem importLineLoop_header (rest : List (List Char)) (ln : Nat)
    (vals : List ℚ) (tss : List Int) :
    importLineLoop (headerLine :: rest) ln vals tss =
      .error (.formatInvalid (ln + 1)) := by
  have h1 : headerLine.all isStreamSpace = false := by decide
  have h2 : parseLongLong headerLine = none := by decide
  simp [importLineLoop, h1, h2]

/-- C2: the claimed export/import round-trip can never succeed: for every
series state (empty or not), importing the lines written by export fails at
line 1 with the invalid-format file error.  exportDataToFile always writes
the header line first; importDataFromFile probes the first line, then
rewinds the stream to the beginning in both branches of its header check,
so its data loop re-reads the header as a data row, whose long long
extraction fails.  The spec (and the source's own ExportImportRoundtrip
test and "Skip header line if present" comment) expect the header to be
skipped instead. -/
theorem claim_C2_roundTrip_headerFailure :
    ∀ (si : List (Int × ℚ) → List (Int × ℚ)) (s : SeriesState),
      importDataFromLines si (exportLines s) = .error (.formatInvalid 1) := by
  intro si s
  simp [importDataFromLines, exportLines, importLineLoop_header]

theorem getD_eq_of_lt {α : Type} (l : List α) (d : α) {k : Nat}
    (hk : k < l.length) : l.getD k d = l[k] := by
  rw [List.getD_eq_getElem?_getD, List.getElem?_eq_getElem hk]
  rfl

theorem getD_last {α : Type} (l : List α) (d : α) (h : l ≠ []) :
    l.getD (l.length - 1) d = l.getLast h := by
  rw [List.getLast_eq_getElem,
    getD_eq_of_lt l d (Nat.sub_lt (List.length_pos.mpr h) one_pos)]

theorem appendIdx_eq_getLast (ts : List Int) (t : Int) (hne : ts ≠ []) :
    (ts ++ [t]).getD ((ts ++ [t]).length - 2) 0 = ts.getLast hne := by
  have hn : 0 < ts.length := List.length_pos.mpr hne
  have hl : (ts ++ [t]).length = ts.length + 1 := by simp
  rw [hl]
  have h2 : ts.length + 1 - 2 = ts.length - 1 := by omega
  rw [h2, List.getD_append ts [t] 0 (ts.length - 1) (by omega)]
  exact getD_last ts 0 hne

theorem sorted_le_getLast :
    ∀ (l : List Int), l.Pairwise (· ≤ ·) → ∀ (h : l ≠ []) (a : Int),
      a ∈ l → a ≤ l.getLast h := by
  intro l
  induction l with
  | nil => intro _ h; exact absurd rfl h
  | cons x rest ih =>
      intro hp h a ha
      by_cases hr : rest = []
      · subst hr
        simp only [List.mem_singleton] at ha
        subst ha
        simp [List.getLast]
      · rw [List.getLast_cons hr]
        rcases List.mem_cons.mp ha with rfl | hmem
        · exact (List.pairwise_cons.mp hp).1 _ (List.getLast_mem hr)
        · exact ih (List.pairwise_cons.mp hp).2 hr a hmem

/-- C10: for every series satisfying the chronological invariant, appending
with a timestamp greater than or equal to the last stored one (ties
included) performs no re-sort: the result is exactly the old vectors with
the new value and timestamp pushed at the end. -/
theorem claim_C10_appendInOrder :
    ∀ (si : List (Int × ℚ) → List (Int × ℚ)) (s : SeriesState) (v : ℚ)
      (t : Int),
      s.data.length = s.timestamps.length →
      s.timestamps.Pairwise (· ≤ ·) →
      ∀ hne : s.timestamps ≠ [],
        s.timestamps.getLast hne ≤ t →
        appendData si s v t = .ok ⟨s.data ++ [v], s.timestamps ++ [t]⟩ := by
  intro si s v t _ _ hne hle
  have hcond : ¬(1 < (s.timestamps ++ [t]).length ∧
      t < (s.timestamps ++ [t]).getD ((s.timestamps ++ [t]).length - 2) 0) := by
    intro hc
    rw [appendIdx_eq_getLast s.timestamps t hne] at hc
    exact absurd hc.2 (not_lt.mpr hle)
  simp only [appendData]
  rw [if_neg hcond]

/-- Closed witness for claim C10: appending at a tied timestamp (10 equals
the stored last timestamp) pushes at the end without re-sorting. -/
theorem claim_C10_appendInOrder_witness :
    ([0, 10] : List Int).Pairwise (· ≤ ·) ∧
    appendData stableSortPairs ⟨[1, 2], [0, 10]⟩ 7 10 =
      .ok ⟨[1, 2, 7], [0, 10, 10]⟩ := by
  refine ⟨by simp, ?_⟩
  have h := claim_C10_appendInOrder stableSortPairs ⟨[1, 2], [0, 10]⟩ 7 10
    (by simp) (by simp) (by simp) (by simp [List.getLast])
  exact h

/-- C1: for every series state satisfying the chronological invariant and
every (value, timestamp) argument, appendData returns a state that again
satisfies both invariants: equal vector lengths and non-decreasing
timestamps — for any sort routine meeting the std::sort contract, so
appending in arbitrary time order never leaves an observably unsorted
series. -/
theorem claim_C1_appendInvariants :
    ∀ (si : List (Int × ℚ) → List (Int × ℚ)), SortImplOk si →
      ∀ (s : SeriesState) (v : ℚ) (t : Int),
        s.data.length = s.timestamps.length →
        s.timestamps.Pairwise (· ≤ ·) →
        ∃ s', appendData si s v t = .ok s' ∧
          s'.data.length = s'.timestamps.length ∧
          s'.timestamps.Pairwise (· ≤ ·) := by
  intro si hsi s v t h1 h2
  by_cases hcond : 1 < (s.timestamps ++ [t]).length ∧
      t < (s.timestamps ++ [t]).getD ((s.timestamps ++ [t]).length - 2) 0
  · -- out-of-order append: the full re-sort runs
    have hlen : (s.data ++ [v]).length = (s.timestamps ++ [t]).length := by
      simp [h1]
    have hner : ((s.timestamps ++ [t]).zip (s.data ++ [v])) ≠ [] := by
      have : ((s.timestamps ++ [t]).zip (s.data ++ [v])).length =
          min (s.timestamps.length + 1) (s.data.length + 1) := by simp
      intro hnil
      rw [hnil] at this
      simp at this
      omega
    have hnemp : (s.data ++ [v]).isEmpty = false := by
      simp [List.isEmpty_iff]
    refine ⟨⟨(si ((s.timestamps ++ [t]).zip (s.data ++ [v]))).map Prod.snd,
             (si ((s.timestamps ++ [t]).zip (s.data ++ [v]))).map Prod.fst⟩,
      ?_, by simp, ?_⟩
    · simp only [appendData]
      rw [if_pos hcond]
      simp [ensureSorted, hlen, hnemp]
    · have hp := (hsi ((s.timestamps ++ [t]).zip (s.data ++ [v]))).2
      exact List.pairwise_map.mpr hp
  · -- in-order append: plain push_back
    refine ⟨⟨s.data ++ [v], s.timestamps ++ [t]⟩, ?_, by simp [h1], ?_⟩
    · simp only [appendData]
      rw [if_neg hcond]
    · by_cases hne : s.timestamps = []
      · rw [hne]
        simp
      · have hlast : s.timestamps.getLast hne ≤ t := by
          by_contra hlt
          apply hcond
          constructor
          · simp
            have := List.length_pos.mpr hne
            omega
          · rw [appendIdx_eq_getLast s.timestamps t hne]
            exact not_le.mp hlt
        rw [List.pairwise_append]
        refine ⟨h2, List.pairwise_singleton _ _, ?_⟩
        intro a ha b hb
        simp only [List.mem_singleton] at hb
        subst hb
        exact le_trans (sorted_le_getLast s.timestamps h2 hne a ha) hlast

/-- Closed witness for claim C1: an out-of-order append (timestamp 5 before
the stored last timestamp 10) yields a state satisfying both invariants. -/
theorem claim_C1_appendInvariants_witness :
    SortImplOk stableSortPairs ∧
    ∃ s', appendData stableSortPairs ⟨[1, 2], [0, 10]⟩ 7 5 = .ok s' ∧
      s'.data.length = s'.timestamps.length ∧
      s'.timestamps.Pairwise (· ≤ ·) :=
  ⟨stableSortPairs_ok,
   claim_C1_appendInvariants stableSortPairs stableSortPairs_ok
     ⟨[1, 2], [0, 10]⟩ 7 5 (by simp) (by simp)⟩

theorem importSeriesLoop_append (si : List (Int × ℚ) → List (Int × ℚ)) :
    ∀ (xs ys : List (String × Json)) (acc : List (String × SeriesState)),
      (importSeriesLoop si xs acc).1 = none →
      importSeriesLoop si (xs ++ ys) acc =
        importSeriesLoop si ys (importSeriesLoop si xs acc).2 := by
  intro xs
  induction xs with
  | nil => intro ys acc _; rfl
  | cons hd tl ih =>
      intro ys acc hok
      obtain ⟨name, j⟩ := hd
      simp only [importSeriesLoop, List.cons_append] at hok ⊢
      cases hdec : decodeSeriesJson name j with
      | error e => rw [hdec] at hok; simp at hok
      | ok vt =>
          obtain ⟨vals, tss⟩ := vt
          simp only [hdec] at hok ⊢
          cases hc : constructSeries si vals tss with
          | error e => rw [hc] at hok; simp at hok
          | ok st =>
              simp only [hc] at hok ⊢
              exact ih ys (emplaceSeries acc name st) hok

theorem decodeSeriesJson_mismatch (name : String)
    (fields : List (String × Json)) (tsArr vArr : List Json)
    (hts : jsonLookup fields "timestamps_epoch_s" = some (.arr tsArr))
    (hv : jsonLookup fields "values" = some (.arr vArr))
    (hne : tsArr.length ≠ vArr.length) :
    decodeSeriesJson name (.obj fields) =
      .error (.lengthMismatch name tsArr.length vArr.length) := by
  simp only [decodeSeriesJson, hts, hv]
  rw [if_pos hne]

/-- C3: importFromJson clears the Collection before decoding, whatever it
held; when a decoded document contains (after a prefix of entries that
decode successfully) a series whose timestamps array and values array have
different lengths, the call fails with the length-mismatch format error
naming that series and the two counts, and the Collection afterwards holds
exactly the series decoded before the failure point — later entries are
never reached. -/
theorem claim_C3_importFromJson :
    ∀ (si : List (Int × ℚ) → List (Int × ℚ))
      (initial stPre : List (String × SeriesState))
      (pre rest : List (String × Json)) (name : String)
      (fields : List (String × Json)) (tsArr vArr : List Json),
      importSeriesLoop si pre [] = (none, stPre) →
      jsonLookup fields "timestamps_epoch_s" = some (.arr tsArr) →
      jsonLookup fields "values" = some (.arr vArr) →
      tsArr.length ≠ vArr.length →
      importFromJson si initial
          (.obj (pre ++ (name, .obj fields) :: rest)) =
        (some (.lengthMismatch name tsArr.length vArr.length), stPre) := by
  intro si initial stPre pre rest name fields tsArr vArr hpre hts hv hne
  have h1 : (importSeriesLoop si pre []).1 = none := by rw [hpre]
  show importSeriesLoop si (pre ++ (name, Json.obj fields) :: rest) [] = _
  rw [importSeriesLoop_append si pre ((name, Json.obj fields) :: rest) [] h1,
    hpre]
  simp only [importSeriesLoop,
    decodeSeriesJson_mismatch name fields tsArr vArr hts hv hne]

/-- Closed witness for claim C3: a document whose series "a" decodes, whose
series "b" has 3 timestamps but 2 values, and whose series "c" is never
reached; the initial Collection content is discarded and the final state
holds exactly the sorted decode of "a". -/
theorem claim_C3_importFromJson_witness :
    importSeriesLoop stableSortPairs
        [("a", Json.obj [("timestamps_epoch_s", Json.arr [Json.int 1, Json.int 0]),
                         ("values", Json.arr [Json.int 10, Json.int 20])])] [] =
      (none, [("a", ⟨[20, 10], [0, 1000000000]⟩)]) ∧
    importFromJson stableSortPairs [("zz", ⟨[1], [2]⟩)]
        (.obj
          [("a", Json.obj [("timestamps_epoch_s", Json.arr [Json.int 1, Json.int 0]),
                           ("values", Json.arr [Json.int 10, Json.int 20])]),
           ("b", Json.obj [("timestamps_epoch_s",
                             Json.arr [Json.int 0, Json.int 1, Json.int 2]),
                           ("values", Json.arr [Json.int 1, Json.int 2])]),
           ("c", Json.other)]) =
      (some (.lengthMismatch "b" 3 2), [("a", ⟨[20, 10], [0, 1000000000]⟩)]) := by
  constructor
  · rfl
  · exact claim_C3_importFromJson stableSortPairs [("zz", ⟨[1], [2]⟩)]
      [("a", ⟨[20, 10], [0, 1000000000]⟩)]
      [("a", Json.obj [("timestamps_epoch_s", Json.arr [Json.int 1, Json.int 0]),
                       ("values", Json.arr [Json.int 10, Json.int 20])])]
      [("c", Json.other)] "b"
      [("timestamps_epoch_s", Json.arr [Json.int 0, Json.int 1, Json.int 2]),
       ("values", Json.arr [Json.int 1, Json.int 2])]
      [Json.int 0, Json.int 1, Json.int 2] [Json.int 1, Json.int 2]
      rfl rfl rfl (by norm_num)

theorem lowerBoundIdx_zero (ts : List Int) (t : Int) (hne : ts ≠ [])
    (h : t ≤ ts.getD 0 0) : lowerBoundIdx ts t = 0 := by
  cases hc : ts with
  | nil => exact absurd hc hne
  | cons x rest =>
      rw [hc] at h
      rw [lowerBoundIdx, List.findIdx_cons]
      have hx : decide (t ≤ x) = true := by
        simp only [decide_eq_true_eq]
        exact h
      rw [hx]
      rfl

theorem lowerBoundIdx_length (ts : List Int) (t : Int)
    (hsort : ts.Pairwise (· ≤ ·)) (hne : ts ≠ [])
    (h : ts.getLast hne < t) : lowerBoundIdx ts t = ts.length := by
  rw [lowerBoundIdx, List.findIdx_eq_length]
  intro x hx
  simp only [decide_eq_false_iff_not, not_le]
  exact lt_of_le_of_lt (sorted_le_getLast ts hsort hne x hx) h

theorem lowerBoundIdx_firstHit (ts : List Int) (t : Int)
    (hsort : ts.Pairwise (· ≤ ·)) (k : Nat) (hk : k < ts.length)
    (hkt : ts.getD k 0 = t) (hfirst : ∀ j : Nat, j < k → ts.getD j 0 ≠ t) :
    lowerBoundIdx ts t = k := by
  rw [lowerBoundIdx, List.findIdx_eq hk]
  constructor
  · rw [← getD_eq_of_lt ts 0 hk, hkt]
    simp
  · intro j hj
    have hjlen : j < ts.length := lt_trans hj hk
    have hle : ts.getD j 0 ≤ ts.getD k 0 := by
      rw [getD_eq_of_lt ts 0 hjlen, getD_eq_of_lt ts 0 hk]
      exact List.pairwise_iff_getElem.mp hsort j k hjlen hk hj
    have hlt : ts.getD j 0 < t := lt_of_le_of_ne (hkt ▸ hle) (hfirst j hj)
    rw [← getD_eq_of_lt ts 0 hjlen]
    simp only [decide_eq_false_iff_not, not_le]
    exact hlt

/-- C6 (amended): for every non-empty series satisfying the invariants and
every sorted query-time vector, interpolateData maps interpolateOne over
the query times, and for each query time t, with either method: the first
stored value when t is at or before the first stored timestamp; the last
stored value when t is strictly after the last stored timestamp; when t
equals a stored timestamp past the first one, the stored value at the
FIRST index carrying that timestamp (the upper neighbour y1 of the
bracketing search); hence the last stored value when t equals the last
timestamp and that timestamp is unique — but not when the last timestamp
is duplicated, which is what the original claim missed. -/
theorem claim_C6_interpolate :
    ∀ (s : SeriesState) (qs : List Int) (m : InterpolationMethod)
      (hd : s.data ≠ []) (hts : s.timestamps ≠ []),
      s.data.length = s.timestamps.length →
      s.timestamps.Pairwise (· ≤ ·) →
      adjacentSorted qs = true →
      (interpolateData s qs m =
        .ok (qs.map (interpolateOne s.data s.timestamps m))) ∧
      ∀ t : Int,
        (t ≤ s.timestamps.getD 0 0 →
          interpolateOne s.data s.timestamps m t = s.data.getD 0 0) ∧
        (s.timestamps.getLast hts < t →
          interpolateOne s.data s.timestamps m t = s.data.getLast hd) ∧
        (∀ k : Nat, k < s.timestamps.length → s.timestamps.getD k 0 = t →
          (∀ j : Nat, j < k → s.timestamps.getD j 0 ≠ t) →
          s.timestamps.getD 0 0 < t →
          interpolateOne s.data s.timestamps m t = s.data.getD k 0) ∧
        (t = s.timestamps.getLast hts →
          (s.timestamps.length = 1 ∨
            s.timestamps.getD (s.timestamps.length - 2) 0 <
              s.timestamps.getLast hts) →
          interpolateOne s.data s.timestamps m t = s.data.getLast hd) := by
  intro s qs m hd hts hlen hsort hq
  have hdne : s.data.isEmpty = false := by simp [List.isEmpty_iff, hd]
  have htslen : 0 < s.timestamps.length := List.length_pos.mpr hts
  have hclampA : ∀ t : Int, t ≤ s.timestamps.getD 0 0 →
      interpolateOne s.data s.timestamps m t = s.data.getD 0 0 := by
    intro t ht
    rw [interpolateOne, lowerBoundIdx_zero s.timestamps t hts ht]
    simp
  have hclampB : ∀ t : Int, s.timestamps.getLast hts < t →
      interpolateOne s.data s.timestamps m t = s.data.getLast hd := by
    intro t ht
    rw [interpolateOne, lowerBoundIdx_length s.timestamps t hsort hts ht]
    rw [if_neg (by omega), if_pos rfl]
    exact getD_last s.data 0 hd
  have hexact : ∀ (t : Int) (k : Nat), k < s.timestamps.length →
      s.timestamps.getD k 0 = t →
      (∀ j : Nat, j < k → s.timestamps.getD j 0 ≠ t) →
      s.timestamps.getD 0 0 < t →
      interpolateOne s.data s.timestamps m t = s.data.getD k 0 := by
    intro t k hk hkt hfirst hhead
    have hk0 : k ≠ 0 := by
      intro h0
      rw [h0] at hkt
      exact absurd hkt (ne_of_lt hhead)
    rw [interpolateOne,
      lowerBoundIdx_firstHit s.timestamps t hsort k hk hkt hfirst]
    rw [if_neg hk0, if_neg (Nat.ne_of_lt hk), if_pos hkt.symm]
  refine ⟨?_, fun t => ⟨hclampA t, hclampB t, hexact t, ?_⟩⟩
  · simp [interpolateData, hdne, hq]
  · intro hlast huniq
    rcases huniq with h1 | hpen
    · -- a single stored sample: the clamp at the front applies
      have h0 : s.timestamps.getD 0 0 = s.timestamps.getLast hts := by
        have := getD_last s.timestamps 0 hts
        rw [h1] at this
        exact this
      have hres := hclampA t (by rw [h0, ← hlast])
      rw [hres]
      have hd1 : s.data.length = 1 := by rw [hlen, h1]
      have := getD_last s.data 0 hd
      rw [hd1] at this
      exact this
    · -- the last timestamp is strictly above the penultimate one
      have hk : s.timestamps.length - 1 < s.timestamps.length := by omega
      have hkt : s.timestamps.getD (s.timestamps.length - 1) 0 = t := by
        rw [getD_last s.timestamps 0 hts, hlast]
      have hfirst : ∀ j : Nat, j < s.timestamps.length - 1 →
          s.timestamps.getD j 0 ≠ t := by
        intro j hj
        have hjlen : j < s.timestamps.length := by omega
        have hjle : s.timestamps.getD j 0 ≤
            s.timestamps.getD (s.timestamps.length - 2) 0 := by
          rcases Nat.lt_or_ge j (s.timestamps.length - 2) with hlt | hge
          · rw [getD_eq_of_lt s.timestamps 0 hjlen,
              getD_eq_of_lt s.timestamps 0 (by omega : s.timestamps.length - 2 < s.timestamps.length)]
            exact List.pairwise_iff_getElem.mp hsort j
              (s.timestamps.length - 2) hjlen (by omega) hlt
          · have hje : j = s.timestamps.length - 2 := by omega
            rw [hje]
        have : s.timestamps.getD j 0 < t := by
          rw [hlast]
          exact lt_of_le_of_lt hjle hpen
        exact ne_of_lt this
      have hhead : s.timestamps.getD 0 0 < t := by
        have h2 : 2 ≤ s.timestamps.length := by
          by_contra hcon
          have h1 : s.timestamps.length = 1 := by omega
          have hgd : s.timestamps.getD (s.timestamps.length - 2) 0 =
              s.timestamps.getLast hts := by
            have h3 := getD_last s.timestamps 0 hts
            have h4 : s.timestamps.length - 2 = s.timestamps.length - 1 := by
              omega
            rw [h4, h3]
          rw [hgd] at hpen
          exact lt_irrefl _ hpen
        have h0le : s.timestamps.getD 0 0 ≤
            s.timestamps.getD (s.timestamps.length - 2) 0 := by
          rcases Nat.eq_zero_or_pos (s.timestamps.length - 2) with hz | hpos
          · rw [hz]
          · rw [getD_eq_of_lt s.timestamps 0 htslen,
              getD_eq_of_lt s.timestamps 0 (by omega : s.timestamps.length - 2 < s.timestamps.length)]
            exact List.pairwise_iff_getElem.mp hsort 0
              (s.timestamps.length - 2) htslen (by omega) hpos
        rw [hlast]
        exact lt_of_le_of_lt h0le hpen
      have hres := hexact t (s.timestamps.length - 1) hk hkt hfirst hhead
      rw [hres, ← hlen]
      exact getD_last s.data 0 hd

/-- Counterexample to claim C6 as stated: in the series with values
[1, 2, 3] at timestamps [0, 5, 5], the query time 5 is at the last stored
timestamp, yet interpolation returns 2 (the value at the first index
carrying timestamp 5), not the last stored value 3. -/
theorem claim_C6_counterexample :
    ([0, 5, 5] : List Int).getD 2 0 = 5 ∧
    interpolateData ⟨[1, 2, 3], [0, 5, 5]⟩ [5] .LINEAR = .ok [2] ∧
    ([1, 2, 3] : List ℚ).getD 2 0 = 3 ∧
    interpolateData ⟨[1, 2, 3], [0, 5, 5]⟩ [5] .LINEAR ≠ .ok [3] := by
  refine ⟨rfl, rfl, rfl, ?_⟩
  intro h
  have h2 : ([2] : List ℚ) = [3] := by
    have h1 : Except.ok (ε := Err) ([2] : List ℚ) = .ok [3] := by
      rw [← h]
      rfl
    exact Except.ok.inj h1
  simp at h2

/-- Closed witness for claim C6 (amended) on the series [1,2,3] at
timestamps [0,5,10]: clamp below at query −1, clamp above at query 11,
exact interior hit at query 5, and exact hit on the unique last timestamp
at query 10. -/
theorem claim_C6_interpolate_witness :
    interpolateData ⟨[1, 2, 3], [0, 5, 10]⟩ [-1] .LINEAR = .ok [1] ∧
    interpolateOne [1, 2, 3] [0, 5, 10] .LINEAR (-1) = 1 ∧
    interpolateOne [1, 2, 3] [0, 5, 10] .LINEAR 11 = 3 ∧
    interpolateOne [1, 2, 3] [0, 5, 10] .LINEAR 5 = 2 ∧
    interpolateOne [1, 2, 3] [0, 5, 10] .LINEAR 10 = 3 := by
  have h := claim_C6_interpolate ⟨[1, 2, 3], [0, 5, 10]⟩ [-1] .LINEAR
    (by simp) (by simp) (by simp) (by simp) rfl
  refine ⟨?_, ?_, ?_, ?_, ?_⟩
  · rw [h.1]
    rw [List.map_cons, List.map_nil, (h.2 (-1)).1 (by norm_num)]
    rfl
  · exact (h.2 (-1)).1 (by norm_num)
  · exact (h.2 11).2.1 (by norm_num [List.getLast])
  · have := (h.2 5).2.2.1 1 (by norm_num) rfl
      (by intro j hj; interval_cases j; simp) (by norm_num)
    simpa using this
  · have := (h.2 10).2.2.2 (by norm_num [List.getLast])
      (Or.inr (by norm_num [List.getLast]))
    simpa [List.getLast] using this

theorem evilSort_ok : SortImplOk evilSort := by
  intro l
  by_cases h : l = [(0, 1), (0, 2)]
  · subst h
    rw [evilSort, if_pos rfl]
    exact ⟨by decide, by decide⟩
  · rw [evilSort, if_neg h]
    exact stableSortPairs_ok l

theorem sorted_perm_eq_of_nodup_keys :
    ∀ (l1 l2 : List (Int × ℚ)), l1.Perm l2 → l1.Pairwise keyLe →
      l2.Pairwise keyLe → (l1.map Prod.fst).Nodup → l1 = l2 := by
  intro l1
  induction l1 with
  | nil =>
      intro l2 hp _ _ _
      exact (hp.symm.eq_nil).symm
  | cons a t1 ih =>
      intro l2 hp hs1 hs2 hnd
      cases l2 with
      | nil => exact absurd hp.eq_nil (by simp)
      | cons b t2 =>
          have hab : a = b := by
            by_contra hne
            have hain : a ∈ b :: t2 := hp.mem_iff.mp (List.mem_cons_self a t1)
            have hbin : b ∈ a :: t1 := hp.symm.mem_iff.mp (List.mem_cons_self b t2)
            have hat2 : a ∈ t2 := by
              rcases List.mem_cons.mp hain with h | h
              · exact absurd h hne
              · exact h
            have hbt1 : b ∈ t1 := by
              rcases List.mem_cons.mp hbin with h | h
              · exact absurd h.symm hne
              · exact h
            have h1 : keyLe a b := (List.pairwise_cons.mp hs1).1 b hbt1
            have h2 : keyLe b a := (List.pairwise_cons.mp hs2).1 a hat2
            have hkey : a.1 = b.1 := le_antisymm h1 h2
            exact hne (List.inj_on_of_nodup_map hnd
              (List.mem_cons_self a t1) hbin hkey)
          subst hab
          have htp : t1.Perm t2 := hp.cons_inv
          have heq : t1 = t2 := by
            apply ih t2 htp (List.pairwise_cons.mp hs1).2
              (List.pairwise_cons.mp hs2).2
            have := hnd
            rw [List.map_cons, List.nodup_cons] at this
            exact this.2
          rw [heq]

/-- Counterexample to claim C8 as stated: the std::sort contract (sorted
permutation, which is all the source's ensureSorted guarantees) admits a
conforming sort routine under which sorting the series with values [1, 2]
at equal timestamps [0, 0] yields values [2, 1] — the equal-timestamp
pairs (0, 1) and (0, 2) do NOT keep their relative original order, so the
sort-restore procedure is not a stable sort. -/
theorem claim_C8_counterexample :
    SortImplOk evilSort ∧
    ensureSorted evilSort ⟨[1, 2], [0, 0]⟩ = .ok ⟨[2, 1], [0, 0]⟩ ∧
    ([0, 0] : List Int).zip ([1, 2] : List ℚ) = [(0, 1), (0, 2)] ∧
    ¬ KeepsTieOrder [(0, 1), (0, 2)] [(0, 2), (0, 1)] :=
  ⟨evilSort_ok, rfl, rfl, fun h =>
    absurd (h (0, 1) (by decide) (0, 2) (by decide) rfl (by decide))
      (by decide)⟩

/-- C8 (amended): ensureSorted yields a permutation of the
(timestamp, value) pairs sorted by timestamp ascending, for every sort
routine meeting the std::sort contract; when the timestamps are pairwise
distinct the result is moreover uniquely determined (it equals the stable
insertion sort of the pairs), but for equal timestamps the relative order
is NOT guaranteed — std::sort carries no stability promise, which is what
the original claim missed. -/
theorem claim_C8_sortRestore :
    ∀ (si : List (Int × ℚ) → List (Int × ℚ)), SortImplOk si →
      ∀ (s out : SeriesState),
        s.data.length = s.timestamps.length →
        ensureSorted si s = .ok out →
        (out.timestamps.zip out.data).Perm (s.timestamps.zip s.data) ∧
        out.timestamps.Pairwise (· ≤ ·) ∧
        (s.timestamps.Nodup →
          out.timestamps.zip out.data =
            stableSortPairs (s.timestamps.zip s.data)) := by
  intro si hsi s out hlen hok
  by_cases hemp : s.data.isEmpty
  · have hde : s.data = [] := List.isEmpty_iff.mp hemp
    have hte : s.timestamps = [] := by
      have := hlen
      rw [hde] at this
      exact List.eq_nil_of_length_eq_zero this.symm
    have hout : out = s := by
      have h2 := hok
      simp [ensureSorted, hlen, hemp] at h2
      exact h2.symm
    subst hout
    rw [hde, hte]
    exact ⟨List.Perm.refl _, by simp, fun _ => rfl⟩
  · have h2 := hok
    simp only [ensureSorted, hlen, ne_eq, not_true_eq_false, if_false,
      hemp, Bool.false_eq_true] at h2
    have hout : out = ⟨(si (s.timestamps.zip s.data)).map Prod.snd,
        (si (s.timestamps.zip s.data)).map Prod.fst⟩ :=
      (Except.ok.inj h2).symm
    subst hout
    have hzip : (((si (s.timestamps.zip s.data)).map Prod.fst).zip
        ((si (s.timestamps.zip s.data)).map Prod.snd)) =
        si (s.timestamps.zip s.data) := by
      have h3 := List.zip_unzip (si (s.timestamps.zip s.data))
      rw [List.unzip_eq_map] at h3
      exact h3
    have hperm := (hsi (s.timestamps.zip s.data)).1
    have hpair := (hsi (s.timestamps.zip s.data)).2
    refine ⟨?_, ?_, ?_⟩
    · dsimp only
      rw [hzip]
      exact hperm
    · dsimp only
      exact List.pairwise_map.mpr hpair
    · intro hnd
      dsimp only
      rw [hzip]
      apply sorted_perm_eq_of_nodup_keys
      · exact hperm.trans (stableSortPairs_ok (s.timestamps.zip s.data)).1.symm
      · exact hpair
      · exact (stableSortPairs_ok (s.timestamps.zip s.data)).2
      · have hmap : ((si (s.timestamps.zip s.data)).map Prod.fst).Perm
            ((s.timestamps.zip s.data).map Prod.fst) := hperm.map Prod.fst
        have hkeys : ((s.timestamps.zip s.data).map Prod.fst).Nodup := by
          rw [List.map_fst_zip s.timestamps s.data (le_of_eq hlen.symm)]
          exact hnd
        exact (hmap.nodup_iff).mpr hkeys

/-- Closed witness for claim C8 (amended): sorting the out-of-order series
with values [2, 1] at distinct timestamps [3, 1] with the conforming
stable insertion sort gives the sorted permutation, equal to the canonical
stable sort of the pairs. -/
theorem claim_C8_sortRestore_witness :
    SortImplOk stableSortPairs ∧
    ensureSorted stableSortPairs ⟨[2, 1], [3, 1]⟩ = .ok ⟨[1, 2], [1, 3]⟩ ∧
    (([1, 3] : List Int).zip ([1, 2] : List ℚ)).Perm
      (([3, 1] : List Int).zip ([2, 1] : List ℚ)) ∧
    ([1, 3] : List Int).Pairwise (· ≤ ·) := by
  have h := claim_C8_sortRestore stableSortPairs stableSortPairs_ok
    ⟨[2, 1], [3, 1]⟩ ⟨[1, 2], [1, 3]⟩ (by simp) rfl
  exact ⟨stableSortPairs_ok, rfl, h.1, h.2.1⟩

end IoTDataKit
